import Mathlib

/-!
Verification of the analytical queries of the smart-bi-platform repository.

The repository computes business metrics with SQL window functions
(NTILE, PERCENT_RANK, LAG, DENSE_RANK) over five tables
(departments, employees, products, customers, sales).  This file gives a
shallow embedding of the queries in `src/api/main.py` (the FastAPI
endpoints) and `src/scripts/run_analytics.py` (the CLI analytics script)
as pure functions on lists of records, and proves or refutes the claims
of the specification against them.

Numeric columns are modelled by `ℚ` (SQL `numeric`), dates by `Int`
(days since 1970-01-01, as SQL date subtraction yields integer days),
and nullable columns by `Option`.  `TO_CHAR` currency formatting is a
presentation detail and is not modelled: all claims are about the
underlying numeric values.
-/

/-! ## Data model (tables created by `src/scripts/generate_data.py`) -/

/-- Sale status domain: `status ∈ {completed, pending, cancelled}`. -/
inductive SaleStatus where
  | completed
  | pending
  | cancelled
deriving DecidableEq, Repr, Inhabited

/-- A row of the `employees` table (the columns the queries use). -/
structure Employee where
  emp_id : ℕ
  first_name : String
  last_name : String
  position : String
  dept_id : ℕ
  salary : ℚ
  is_active : Bool
deriving DecidableEq, Repr, Inhabited

/-- A row of the `departments` table. -/
structure Department where
  dept_id : ℕ
  dept_name : String
  location : String
deriving DecidableEq, Repr, Inhabited

/-- A row of the `customers` table (the columns the queries use). -/
structure Customer where
  customer_id : ℕ
  first_name : String
  last_name : String
deriving DecidableEq, Repr, Inhabited

/-- A row of the `products` table (the columns the queries use). -/
structure Product where
  product_id : ℕ
  product_name : String
  category : String
deriving DecidableEq, Repr, Inhabited

/-- A row of the `sales` table (the columns the queries use).
`sale_date` is the day number (days since 1970-01-01). -/
structure Sale where
  sale_id : ℕ
  customer_id : ℕ
  emp_id : ℕ
  product_id : ℕ
  quantity : ℕ
  total_amount : ℚ
  sale_date : Int
  status : SaleStatus
deriving DecidableEq, Repr, Inhabited

/-- `first_name || ' ' || last_name`. -/
def fullName (fn ln : String) : String := fn ++ " " ++ ln

/-! ## Numeric helpers -/

/-- PostgreSQL `ROUND(x)` on `numeric`: round half away from zero, to an
integer. -/
def pgRound (q : ℚ) : ℤ :=
  if q < 0 then -⌊-q + 1/2⌋ else ⌊q + 1/2⌋

/-- PostgreSQL `ROUND(x, 2)`: round half away from zero to two decimal
digits. -/
def round2 (q : ℚ) : ℚ := (pgRound (q * 100) : ℚ) / 100

/-- PostgreSQL `ROUND(x, 0)` as a rational. -/
def round0 (q : ℚ) : ℚ := (pgRound q : ℚ)

/-! ## Calendar: `DATE_TRUNC('month', sale_date)`

Conversion from a day number to the civil (proleptic Gregorian)
year and month, so that grouping by `DATE_TRUNC('month', …)` can be
expressed on day-number dates. -/

/-- Year and month of a day number (days since 1970-01-01). -/
def civilYM (z0 : Int) : Int × Int :=
  let z := z0 + 719468
  let era := z.fdiv 146097
  let doe := (z - era * 146097).toNat
  let yoe := (doe - doe / 1460 + doe / 36524 - doe / 146096) / 365
  let doy := doe - (365 * yoe + yoe / 4 - yoe / 100)
  let mp := (5 * doy + 2) / 153
  let m : Int := (mp : Int) + (if mp < 10 then 3 else -9)
  let y : Int := (yoe : Int) + era * 400 + (if m ≤ 2 then 1 else 0)
  (y, m)

/-- Linear key of the calendar month containing a day: `year * 12 + month`.
Two dates get the same key exactly when `DATE_TRUNC('month', ·)` agrees,
and the key order is the month order. -/
def monthKey (d : Int) : Int := (civilYM d).1 * 12 + (civilYM d).2

/-! ## Window-function primitives -/

/-- The key of row `i` in a list of ordering keys (rows are indexed in
table order; out-of-range reads default to `0` and are never used on
valid indices). -/
def keyAt (keys : List ℚ) (i : ℕ) : ℚ := keys.getD i 0

/-- The bucket (1-based) that PostgreSQL `NTILE(k)` assigns to the row at
0-based position `i` of an ordered partition of `n` rows: the first
`n % k` buckets receive `n / k + 1` rows and the rest receive `n / k`. -/
def ntileBucket (k n i : ℕ) : ℕ :=
  let q := n / k
  let r := n % k
  if i < r * (q + 1) then i / (q + 1) + 1
  else r + (i - r * (q + 1)) / q + 1

/-- Number of rows of an `n`-row partition that `NTILE(k)` places in
buckets `1..b` (the cumulative bucket size). -/
def ntileCumul (k n b : ℕ) : ℕ :=
  let q := n / k
  let r := n % k
  if b ≤ r then b * (q + 1) else r * (q + 1) + (b - r) * q

/-- Position of row `i` in the stable ordering of the rows by key:
the number of rows that sort strictly before row `i`, where a row sorts
before another when its key is `lt`-smaller, with ties broken by
original row position.  This is the ordinal position `ROW_NUMBER() - 1`
of the row under `ORDER BY key` with deterministic tie-breaking. -/
def ntilePos (lt : ℚ → ℚ → Prop) [DecidableRel lt] (keys : List ℚ) (i : ℕ) : ℕ :=
  ((Finset.range keys.length).filter
    (fun j => lt (keyAt keys j) (keyAt keys i) ∨ (keyAt keys j = keyAt keys i ∧ j < i))).card

/-- `NTILE(k) OVER (ORDER BY key)` for every row, in original row order. -/
def ntileScores (k : ℕ) (lt : ℚ → ℚ → Prop) [DecidableRel lt] (keys : List ℚ) : List ℕ :=
  (List.range keys.length).map (fun i => ntileBucket k keys.length (ntilePos lt keys i))

/-- `NTILE(k) OVER (ORDER BY key ASC)`. -/
def ntileAsc (k : ℕ) (keys : List ℚ) : List ℕ :=
  ntileScores k (fun a b => a < b) keys

/-- `NTILE(k) OVER (ORDER BY key DESC)`. -/
def ntileDesc (k : ℕ) (keys : List ℚ) : List ℕ :=
  ntileScores k (fun a b => b < a) keys

/-- `PERCENT_RANK() OVER (ORDER BY key)` of a row with key `s`:
`(rank - 1) / (n - 1)` where `rank - 1` is the number of rows with a
strictly smaller key; `0` for a single-row partition (PostgreSQL returns
`0` when the partition has at most one row). -/
def percentRankVal (keys : List ℚ) (s : ℚ) : ℚ :=
  if keys.length ≤ 1 then 0
  else (keys.countP (fun x => decide (x < s)) : ℚ) / ((keys.length : ℚ) - 1)

/-- `DENSE_RANK() OVER (ORDER BY v DESC)` of the value `v` among `vals`:
one plus the number of distinct values strictly greater. -/
def denseRankDesc (vals : List ℚ) (v : ℚ) : ℕ :=
  1 + ((vals.filter (fun x => decide (v < x))).dedup).length

/-! ## Query 1: employee salary analysis
(`GET /analytics/employees/salary`, `src/api/main.py`) -/

/-- A result row of the salary analysis.  `percentile_rank` is the value
`ROUND(salary_percentile * 100, 2)` (the `'%'` suffix is formatting). -/
structure SalaryRow where
  employee_name : String
  position : String
  dept_name : String
  salary : ℚ
  salary_quartile : ℕ
  percentile_rank : ℚ
deriving DecidableEq, Repr, Inhabited

/-- `FROM employees e JOIN departments d ON e.dept_id = d.dept_id
WHERE e.is_active = TRUE` — the inner join of active employees with
their department. -/
def activeEmpDept (employees : List Employee) (departments : List Department) :
    List (Employee × Department) :=
  (employees.filter (fun e => e.is_active)).flatMap
    (fun e => (departments.filter (fun d => d.dept_id == e.dept_id)).map (fun d => (e, d)))

/-- The `salary_stats` CTE: quartile by `NTILE(4) OVER (ORDER BY salary)`
and percentile by `ROUND(PERCENT_RANK() OVER (ORDER BY salary) * 100, 2)`. -/
def salaryStats (employees : List Employee) (departments : List Department) :
    List SalaryRow :=
  let base := activeEmpDept employees departments
  let keys := base.map (fun ed => ed.1.salary)
  let quart := ntileAsc 4 keys
  (List.range base.length).map (fun i =>
    let ed := base.getD i default
    { employee_name := fullName ed.1.first_name ed.1.last_name
      position := ed.1.position
      dept_name := ed.2.dept_name
      salary := ed.1.salary
      salary_quartile := quart.getD i 0
      percentile_rank := round2 (percentRankVal keys ed.1.salary * 100) })

/-- The endpoint result: `salary_stats` ordered by salary descending,
truncated to `limit` rows. -/
def get_employee_salary_analysis (employees : List Employee)
    (departments : List Department) (limit : ℕ) : List SalaryRow :=
  (List.insertionSort (fun a b => b.salary ≤ a.salary)
    (salaryStats employees departments)).take limit

/-- The salary-analysis rows sorted ascending by salary — the order in
which the specification states the percentile property. -/
def salarySortedAsc (employees : List Employee) (departments : List Department) :
    List SalaryRow :=
  List.insertionSort (fun a b => a.salary ≤ b.salary) (salaryStats employees departments)

/-! ## Query 2: monthly sales trend
(`GET /analytics/sales/monthly` in `src/api/main.py`, and query 2 of
`src/scripts/run_analytics.py`) -/

/-- `sales WHERE status = 'completed'`. -/
def completedSales (sales : List Sale) : List Sale :=
  sales.filter (fun s => s.status == SaleStatus.completed)

/-- One group of the `monthly_sales` CTE: a calendar month with its
completed-sale transaction count and revenue. -/
structure MonthGroup where
  month : Int
  transaction_count : ℕ
  revenue : ℚ
deriving DecidableEq, Repr, Inhabited

/-- `SELECT DATE_TRUNC('month', sale_date), COUNT(*), SUM(total_amount)
FROM sales WHERE status = 'completed' GROUP BY DATE_TRUNC('month', sale_date)`,
one group per distinct month, in first-occurrence order. -/
def monthlyGroups (sales : List Sale) : List MonthGroup :=
  let cs := completedSales sales
  ((cs.map (fun s => monthKey s.sale_date)).dedup).map (fun m =>
    let ms := cs.filter (fun s => monthKey s.sale_date == m)
    { month := m
      transaction_count := ms.length
      revenue := (ms.map (fun s => s.total_amount)).sum })

/-- The monthly groups ordered by month descending (most recent first). -/
def monthsDesc (sales : List Sale) : List MonthGroup :=
  List.insertionSort (fun a b => b.month ≤ a.month) (monthlyGroups sales)

/-- The monthly groups ordered by month ascending (oldest first). -/
def monthsAsc (sales : List Sale) : List MonthGroup :=
  List.insertionSort (fun a b => a.month ≤ b.month) (monthlyGroups sales)

/-- A result row of the API monthly trend.  `growth_rate` is
`ROUND(((revenue - LAG(revenue)) / NULLIF(LAG(revenue), 0)) * 100, 2)`,
`none` when the lagged value is absent or zero. -/
structure TrendRow where
  month : Int
  transaction_count : ℕ
  revenue : ℚ
  growth_rate : Option ℚ
deriving DecidableEq, Repr, Inhabited

/-- Pair every row with `LAG(revenue, 1)` over the given row order
(the previous row's revenue; `none` for the first row). -/
def withLag (prev : Option ℚ) : List MonthGroup → List (MonthGroup × Option ℚ)
  | [] => []
  | g :: rest => (g, prev) :: withLag (some g.revenue) rest

/-- `ROUND(((cur - prev) / NULLIF(prev, 0)) * 100, 2)`:
`none` when `prev` is absent or zero (SQL `NULL`). -/
def growthFrom (cur : ℚ) (prev : Option ℚ) : Option ℚ :=
  match prev with
  | none => none
  | some p => if p = 0 then none else some (round2 ((cur - p) / p * 100))

/-- Growth-rate rows computed over a list of month groups in the order
given (the `LAG` window order is the list order). -/
def trendRows (groups : List MonthGroup) : List TrendRow :=
  (withLag none groups).map (fun gp =>
    { month := gp.1.month
      transaction_count := gp.1.transaction_count
      revenue := gp.1.revenue
      growth_rate := growthFrom gp.1.revenue gp.2 })

/-- The API endpoint (`src/api/main.py`): the `monthly_sales` CTE is
`ORDER BY month DESC LIMIT months`, and the outer query computes
`LAG(revenue, 1) OVER (ORDER BY month DESC)` on the rows that survive the
limit, returning them ordered by month descending. -/
def get_monthly_sales_trend (sales : List Sale) (months : ℕ) : List TrendRow :=
  List.insertionSort (fun a b => b.month ≤ a.month)
    (trendRows ((monthsDesc sales).take months))

/-- Reference: the same growth computation with the `LAG` window over the
complete monthly history (no limit inside the CTE), truncated to the
`months` most recent months only afterwards. -/
def apiTrendFullHistory (sales : List Sale) : List TrendRow :=
  trendRows (monthsDesc sales)

/-- A result row of the script monthly trend (query 2 of
`src/scripts/run_analytics.py`), which also reports `LAG(revenue)`
itself and the trailing three-month average
`AVG(revenue) OVER (ORDER BY month ROWS BETWEEN 2 PRECEDING AND CURRENT ROW)`. -/
structure ScriptTrendRow where
  month : Int
  transaction_count : ℕ
  revenue : ℚ
  prev_month : Option ℚ
  growth_rate : Option ℚ
  three_month_avg : ℚ
deriving DecidableEq, Repr, Inhabited

/-- The script's window computation over the full monthly history in
ascending month order: `LAG(revenue, 1) OVER (ORDER BY month)` and the
trailing window average anchored at each row. -/
def scriptTrendRows (groups : List MonthGroup) : List ScriptTrendRow :=
  (List.range groups.length).map (fun i =>
    let g := groups.getD i default
    let prev : Option ℚ :=
      if i = 0 then none else some (groups.getD (i - 1) default).revenue
    let win := ((groups.take (i + 1)).drop (i - 2)).map (fun x => x.revenue)
    { month := g.month
      transaction_count := g.transaction_count
      revenue := g.revenue
      prev_month := prev
      growth_rate := growthFrom g.revenue prev
      three_month_avg := win.sum / (win.length : ℚ) })

/-- The script's full-history trend rows for a sale collection
(the `monthly_sales` CTE of the script has no `LIMIT`). -/
def scriptTrendFullHistory (sales : List Sale) : List ScriptTrendRow :=
  scriptTrendRows (monthsAsc sales)

/-- Query 2 of `src/scripts/run_analytics.py`: window computation over
the full history in ascending month order, then
`ORDER BY month DESC LIMIT 12`. -/
def script_monthly_sales_trend (sales : List Sale) : List ScriptTrendRow :=
  (List.insertionSort (fun a b => b.month ≤ a.month)
    (scriptTrendFullHistory sales)).take 12

/-! ## Query 3: customer RFM analysis
(`GET /analytics/customers/rfm` in `src/api/main.py`, and query 3 of
`src/scripts/run_analytics.py`) -/

/-- A row of the `customer_metrics` CTE. -/
structure CustomerMetrics where
  customer_id : ℕ
  customer_name : String
  recency_days : Int
  frequency : ℕ
  monetary_value : ℚ
deriving DecidableEq, Repr, Inhabited

/-- The `customer_metrics` CTE:
`LEFT JOIN sales ON customer_id match AND status = 'completed'`,
grouped per customer, `HAVING COUNT(s.sale_id) > 0`
(customers with no completed sale are excluded).
`recency_days = COALESCE(CURRENT_DATE - MAX(s.sale_date), sentinel)`
(`sentinel = 999` in `src/api/main.py`; the script has no `COALESCE`, but
for every kept row the fallback is unreachable, which the
sentinel-independence theorem below makes precise), `frequency` is
`COUNT(DISTINCT s.sale_id)` and `monetary_value` is
`COALESCE(SUM(s.total_amount), 0)`. -/
def customerMetrics (customers : List Customer) (sales : List Sale)
    (today : Int) (sentinel : Int) : List CustomerMetrics :=
  customers.filterMap (fun c =>
    let ms := sales.filter
      (fun s => s.customer_id == c.customer_id && s.status == SaleStatus.completed)
    if 0 < ms.length then
      some { customer_id := c.customer_id
             customer_name := fullName c.first_name c.last_name
             recency_days :=
               match (ms.map (fun s => s.sale_date)).max? with
               | some d => today - d
               | none => sentinel
             frequency := ((ms.map (fun s => s.sale_id)).dedup).length
             monetary_value := (ms.map (fun s => s.total_amount)).sum }
    else none)

/-- A scored RFM result row. -/
structure RFMRow where
  customer_name : String
  recency_days : Int
  frequency : ℕ
  monetary_value : ℚ
  r_score : ℕ
  f_score : ℕ
  m_score : ℕ
  segment : String
deriving DecidableEq, Repr, Inhabited

/-- The API segment cascade (`src/api/main.py`). -/
def apiSegment (r f m : ℕ) : String :=
  if 4 ≤ r ∧ 4 ≤ f ∧ 4 ≤ m then "🏆 Champions"
  else if 3 ≤ r ∧ 3 ≤ f then "💎 Loyal"
  else if 4 ≤ r ∧ f ≤ 2 then "✨ New"
  else if r ≤ 2 then "⚠️ At Risk"
  else "🔄 Potential"

/-- The script segment cascade (query 3 of `src/scripts/run_analytics.py`). -/
def scriptSegment (r f m : ℕ) : String :=
  if 4 ≤ r ∧ 4 ≤ f ∧ 4 ≤ m then "Champions"
  else if 3 ≤ r ∧ 3 ≤ f ∧ 3 ≤ m then "Loyal Customers"
  else if 4 ≤ r ∧ f ≤ 2 then "New Customers"
  else if r ≤ 2 ∧ 3 ≤ f then "At Risk"
  else if r ≤ 2 ∧ f ≤ 2 then "Lost"
  else "Potential"

/-- The `rfm_scores` CTE of `src/api/main.py`:
`NTILE(5) OVER (ORDER BY recency_days ASC)`,
`NTILE(5) OVER (ORDER BY frequency DESC)`,
`NTILE(5) OVER (ORDER BY monetary_value DESC)`. -/
def rfmScoredApi (metrics : List CustomerMetrics) : List RFMRow :=
  let rs := ntileAsc 5 (metrics.map (fun c => (c.recency_days : ℚ)))
  let fs := ntileDesc 5 (metrics.map (fun c => (c.frequency : ℚ)))
  let ms := ntileDesc 5 (metrics.map (fun c => c.monetary_value))
  (List.range metrics.length).map (fun i =>
    let c := metrics.getD i default
    let r := rs.getD i 0
    let f := fs.getD i 0
    let m := ms.getD i 0
    { customer_name := c.customer_name
      recency_days := c.recency_days
      frequency := c.frequency
      monetary_value := c.monetary_value
      r_score := r
      f_score := f
      m_score := m
      segment := apiSegment r f m })

/-- The `rfm_scores` CTE of query 3 of `src/scripts/run_analytics.py`:
`NTILE(5) OVER (ORDER BY recency_days DESC)`,
`NTILE(5) OVER (ORDER BY frequency)`,
`NTILE(5) OVER (ORDER BY monetary_value)`. -/
def rfmScoredScript (metrics : List CustomerMetrics) : List RFMRow :=
  let rs := ntileDesc 5 (metrics.map (fun c => (c.recency_days : ℚ)))
  let fs := ntileAsc 5 (metrics.map (fun c => (c.frequency : ℚ)))
  let ms := ntileAsc 5 (metrics.map (fun c => c.monetary_value))
  (List.range metrics.length).map (fun i =>
    let c := metrics.getD i default
    let r := rs.getD i 0
    let f := fs.getD i 0
    let m := ms.getD i 0
    { customer_name := c.customer_name
      recency_days := c.recency_days
      frequency := c.frequency
      monetary_value := c.monetary_value
      r_score := r
      f_score := f
      m_score := m
      segment := scriptSegment r f m })

/-- The API endpoint: scored rows ordered by monetary value descending,
truncated to `limit`; the recency sentinel is the literal `999`. -/
def get_customer_rfm_analysis (customers : List Customer) (sales : List Sale)
    (today : Int) (limit : ℕ) : List RFMRow :=
  (List.insertionSort (fun a b => b.monetary_value ≤ a.monetary_value)
    (rfmScoredApi (customerMetrics customers sales today 999))).take limit

/-- Query 3 of the script: scored rows ordered by monetary value
descending, `LIMIT 20`. -/
def script_customer_rfm (customers : List Customer) (sales : List Sale)
    (today : Int) : List RFMRow :=
  (List.insertionSort (fun a b => b.monetary_value ≤ a.monetary_value)
    (rfmScoredScript (customerMetrics customers sales today 999))).take 20

/-! ## Query 4: top products (`GET /analytics/products/top`) -/

/-- A result row of the product ranking. -/
structure ProductRow where
  product_name : String
  category : String
  times_sold : ℕ
  total_quantity : ℕ
  revenue : ℚ
  rank : ℕ
deriving DecidableEq, Repr, Inhabited

/-- Per-product aggregates of completed sales, keeping a product exactly
when `SUM(s.total_amount) > 0` (SQL `NULL > 0` is not true, so products
with no completed sale are dropped too; over nonnegative amounts both
conditions coincide with the sum being positive). -/
def productAgg (products : List Product) (sales : List Sale) :
    List (Product × ℕ × ℕ × ℚ) :=
  products.filterMap (fun p =>
    let ms := sales.filter
      (fun s => s.product_id == p.product_id && s.status == SaleStatus.completed)
    let rev := (ms.map (fun s => s.total_amount)).sum
    if 0 < rev then some (p, ms.length, (ms.map (fun s => s.quantity)).sum, rev)
    else none)

/-- The endpoint: aggregates with
`DENSE_RANK() OVER (ORDER BY SUM(total_amount) DESC)`, ordered by revenue
descending, truncated to `limit`. -/
def get_top_products (products : List Product) (sales : List Sale)
    (limit : ℕ) : List ProductRow :=
  let base := productAgg products sales
  let revs := base.map (fun b => b.2.2.2)
  (List.insertionSort (fun a b => b.revenue ≤ a.revenue)
    (base.map (fun b =>
      { product_name := b.1.product_name
        category := b.1.category
        times_sold := b.2.1
        total_quantity := b.2.2.1
        revenue := b.2.2.2
        rank := denseRankDesc revs b.2.2.2 : ProductRow }))).take limit

/-! ## Query 5: department performance (`GET /analytics/departments`) -/

/-- A result row of the department performance roll-up.  `avg_salary`
and `revenue_per_employee` are nullable (`AVG` over no employee rows and
division by `NULLIF(COUNT(DISTINCT emp_id), 0)` are SQL `NULL`). -/
structure DeptRow where
  dept_name : String
  location : String
  employee_count : ℕ
  avg_salary : Option ℚ
  total_sales : ℕ
  total_revenue : ℚ
  revenue_per_employee : Option ℚ
deriving DecidableEq, Repr, Inhabited

/-- The rows that `departments LEFT JOIN employees (active) LEFT JOIN
sales (completed)` produces for one department: a single all-`none` row
when the department has no active employee, otherwise one row per
employee-sale match (or a `none`-sale row for an employee with no
completed sale). -/
def deptJoinRows (d : Department) (employees : List Employee)
    (sales : List Sale) : List (Option Employee × Option Sale) :=
  let es := employees.filter (fun e => e.dept_id == d.dept_id && e.is_active)
  if es.isEmpty then [(none, none)]
  else es.flatMap (fun e =>
    let ss := sales.filter
      (fun s => s.emp_id == e.emp_id && s.status == SaleStatus.completed)
    if ss.isEmpty then [(some e, none)]
    else ss.map (fun s => (some e, some s)))

/-- The endpoint: per-department aggregates over the join rows —
`COUNT(DISTINCT e.emp_id)`, `AVG(e.salary)` (over join rows, so an
employee's salary is weighted by their sale count, as in the SQL),
`COUNT(s.sale_id)`, `COALESCE(SUM(s.total_amount), 0)` and
`ROUND(COALESCE(SUM(s.total_amount), 0) / NULLIF(COUNT(DISTINCT e.emp_id), 0), 0)`
— ordered by coalesced revenue descending. -/
def get_department_performance (departments : List Department)
    (employees : List Employee) (sales : List Sale) : List DeptRow :=
  List.insertionSort (fun a b => b.total_revenue ≤ a.total_revenue)
    (departments.map (fun d =>
    let jr := deptJoinRows d employees sales
    let empIds := (jr.filterMap (fun r => r.1.map (fun e => e.emp_id))).dedup
    let salaries := jr.filterMap (fun r => r.1.map (fun e => e.salary))
    let saleRows := jr.filterMap (fun r => r.2)
    let rev := (saleRows.map (fun s => s.total_amount)).sum
    { dept_name := d.dept_name
      location := d.location
      employee_count := empIds.length
      avg_salary :=
        if salaries.isEmpty then none
        else some (salaries.sum / (salaries.length : ℚ))
      total_sales := saleRows.length
      total_revenue := rev
      revenue_per_employee :=
        if empIds.length = 0 then none
        else some (round0 (rev / (empIds.length : ℚ))) : DeptRow }))

/-! ## `execute_query` (`src/api/utils.py`)

`execute_query` runs a query inside `try`/`except`; any exception is
caught, logged, and turned into the empty list.  The embedding models a
query execution outcome as `Except` — `ok rows` for a successful fetch,
`error e` for a raised exception. -/

/-- `execute_query`: return the fetched rows, or `[]` when the execution
raised. -/
def execute_query {β : Type} (result : Except String (List β)) : List β :=
  match result with
  | Except.ok rows => rows
  | Except.error _ => []

/-- The response body of `GET /analytics/employees/salary`:
`{"employees": data}` where `data = execute_query(...)`. -/
structure SalaryResponse where
  employees : List SalaryRow
deriving DecidableEq, Repr

/-- The endpoint handler around `execute_query`. -/
def salaryEndpointResponse (result : Except String (List SalaryRow)) :
    SalaryResponse :=
  { employees := execute_query result }

/-! ## Concrete instances used in the closed theorems -/

/-- A cohort of five customers for the RFM polarity check. -/
def rfmCustomers : List Customer :=
  [⟨1, "Ann", "Adams"⟩, ⟨2, "Ben", "Berg"⟩, ⟨3, "Cam", "Cole"⟩,
   ⟨4, "Dee", "Dunn"⟩, ⟨5, "Eva", "Ernst"⟩]

/-- Completed sales for `rfmCustomers` as of day 19500: customer `j` has
`j` completed sales of `$100` each (so frequency `j` and monetary value
`100 * j`), and the most recent sale of customer `j` is `6 - j` days old
(customer 5 is the most recent purchaser and top spender). -/
def rfmSales : List Sale :=
  [⟨1, 1, 1, 1, 1, 100, 19495, SaleStatus.completed⟩,
   ⟨2, 2, 1, 1, 1, 100, 19490, SaleStatus.completed⟩,
   ⟨3, 2, 1, 1, 1, 100, 19496, SaleStatus.completed⟩,
   ⟨4, 3, 1, 1, 1, 100, 19480, SaleStatus.completed⟩,
   ⟨5, 3, 1, 1, 1, 100, 19485, SaleStatus.completed⟩,
   ⟨6, 3, 1, 1, 1, 100, 19497, SaleStatus.completed⟩,
   ⟨7, 4, 1, 1, 1, 100, 19470, SaleStatus.completed⟩,
   ⟨8, 4, 1, 1, 1, 100, 19475, SaleStatus.completed⟩,
   ⟨9, 4, 1, 1, 1, 100, 19478, SaleStatus.completed⟩,
   ⟨10, 4, 1, 1, 1, 100, 19498, SaleStatus.completed⟩,
   ⟨11, 5, 1, 1, 1, 100, 19460, SaleStatus.completed⟩,
   ⟨12, 5, 1, 1, 1, 100, 19465, SaleStatus.completed⟩,
   ⟨13, 5, 1, 1, 1, 100, 19468, SaleStatus.completed⟩,
   ⟨14, 5, 1, 1, 1, 100, 19472, SaleStatus.completed⟩,
   ⟨15, 5, 1, 1, 1, 100, 19499, SaleStatus.completed⟩]

/-- Monthly revenues Jan 2023 = 1000, Feb 2023 = 0, Mar 2023 = 500
(one completed sale per month; day numbers 19360, 19390, 19420 fall in
those months). -/
def trendSalesScenario : List Sale :=
  [⟨1, 1, 1, 1, 1, 1000, 19360, SaleStatus.completed⟩,
   ⟨2, 1, 1, 1, 1, 0, 19390, SaleStatus.completed⟩,
   ⟨3, 1, 1, 1, 1, 500, 19420, SaleStatus.completed⟩]

/-- Monthly revenues Jan 2023 = 100, Feb 2023 = 200. -/
def trendSalesGrowing : List Sale :=
  [⟨1, 1, 1, 1, 1, 100, 19360, SaleStatus.completed⟩,
   ⟨2, 1, 1, 1, 1, 200, 19390, SaleStatus.completed⟩]

/-- Department 1, "Eng". -/
def deptEng : Department := ⟨1, "Eng", "HQ"⟩

/-- Three active employees of department 1 with salaries 40000, 60000,
80000. -/
def threeEmployees : List Employee :=
  [⟨1, "Ann", "Adams", "Dev", 1, 40000, true⟩,
   ⟨2, "Ben", "Berg", "Dev", 1, 60000, true⟩,
   ⟨3, "Cam", "Cole", "Dev", 1, 80000, true⟩]

/-- A single active employee of department 1. -/
def soloEmployee : Employee := ⟨1, "Ann", "Adams", "Dev", 1, 50000, true⟩

/-- An active employee whose `dept_id` (99) matches no department. -/
def orphanEmployee : Employee := ⟨7, "Orphan", "Smith", "Dev", 99, 55000, true⟩

/-- A department with no employees at all. -/
def emptyDept : Department := ⟨2, "Empty", "Remote"⟩

/-- A pending (not completed) sale. -/
def pendingSale : Sale := ⟨99, 1, 1, 1, 1, 77, 19480, SaleStatus.pending⟩

/-- A product every concrete sale refers to. -/
def oneProduct : Product := ⟨1, "Widget", "Tools"⟩

/-- The set of (indices of) rows that sort strictly before row `i` in
the stable ordering by key; its cardinality is `ntilePos lt keys i`. -/
def beforeSet (lt : ℚ → ℚ → Prop) [DecidableRel lt] (keys : List ℚ) (i : ℕ) : Finset ℕ :=
  (Finset.range keys.length).filter
    (fun j => lt (keyAt keys j) (keyAt keys i) ∨ (keyAt keys j = keyAt keys i ∧ j < i))

/-- The partition contract of quantile binning, claimed by the
specification for every `NTILE` ranking: every row receives exactly one
bucket in `1..k` (the score list has one entry per input row), any two
bucket sizes differ by at most one, and bucket numbers are monotone
non-decreasing along the ordering — both with the ordering key and, on
tied keys, with the stable ordinal position. -/
def ntileSpecHolds (k : ℕ) (keys : List ℚ) (scores : List ℕ)
    (lt : ℚ → ℚ → Prop) : Prop :=
  scores.length = keys.length ∧
  (∀ s ∈ scores, 1 ≤ s ∧ s ≤ k) ∧
  (∀ b₁ b₂, 1 ≤ b₁ → b₁ ≤ k → 1 ≤ b₂ → b₂ ≤ k →
    scores.countP (fun s => decide (s = b₁)) ≤
      scores.countP (fun s => decide (s = b₂)) + 1) ∧
  (∀ i j, i < keys.length → j < keys.length →
    (lt (keyAt keys i) (keyAt keys j) → scores.getD i 0 ≤ scores.getD j 0) ∧
    (keyAt keys i = keyAt keys j → i < j → scores.getD i 0 ≤ scores.getD j 0))

/-! ## NTILE bucket arithmetic -/

/-- `ntileBucket` with the quotient and remainder abstracted. -/
theorem ntileBucket_eq_qr (k n i q r : ℕ) (hq : n / k = q) (hr : n % k = r) :
    ntileBucket k n i =
      if i < r * (q + 1) then i / (q + 1) + 1 else r + (i - r * (q + 1)) / q + 1 := by
  simp only [ntileBucket, hq, hr]

/-- `ntileCumul` with the quotient and remainder abstracted. -/
theorem ntileCumul_eq_qr (k n b q r : ℕ) (hq : n / k = q) (hr : n % k = r) :
    ntileCumul k n b =
      if b ≤ r then b * (q + 1) else r * (q + 1) + (b - r) * q := by
  simp only [ntileCumul, hq, hr]

theorem ntileBucket_pos (k n i : ℕ) : 1 ≤ ntileBucket k n i := by
  simp only [ntileBucket]
  split
  · exact Nat.succ_le_succ (Nat.zero_le _)
  · exact Nat.succ_le_succ (Nat.zero_le _)

theorem ntileBucket_mono (k n : ℕ) {i j : ℕ} (h : i ≤ j) :
    ntileBucket k n i ≤ ntileBucket k n j := by
  obtain ⟨q, hq⟩ : ∃ x, n / k = x := ⟨_, rfl⟩
  obtain ⟨r, hr⟩ : ∃ x, n % k = x := ⟨_, rfl⟩
  rw [ntileBucket_eq_qr k n i q r hq hr, ntileBucket_eq_qr k n j q r hq hr]
  by_cases hcj : j < r * (q + 1)
  · rw [if_pos (lt_of_le_of_lt h hcj), if_pos hcj]
    exact Nat.succ_le_succ (Nat.div_le_div_right h)
  · by_cases hci : i < r * (q + 1)
    · rw [if_pos hci, if_neg hcj]
      have h1 : i / (q + 1) < r := (Nat.div_lt_iff_lt_mul (Nat.succ_pos _)).2 hci
      have h2 : 0 ≤ (j - r * (q + 1)) / q := Nat.zero_le _
      omega
    · rw [if_neg hci, if_neg hcj]
      exact Nat.add_le_add_right
        (Nat.add_le_add_left (Nat.div_le_div_right (Nat.sub_le_sub_right h _)) _) 1

theorem ntileBucket_le (k n i : ℕ) (hk : 0 < k) (hi : i < n) :
    ntileBucket k n i ≤ k := by
  obtain ⟨q, hq⟩ : ∃ x, n / k = x := ⟨_, rfl⟩
  obtain ⟨r, hr'⟩ : ∃ x, n % k = x := ⟨_, rfl⟩
  have hqr : k * q + r = n := by rw [← hq, ← hr']; exact Nat.div_add_mod n k
  have hr : r < k := by rw [← hr']; exact Nat.mod_lt _ hk
  rw [ntileBucket_eq_qr k n i q r hq hr']
  by_cases hc : i < r * (q + 1)
  · rw [if_pos hc]
    have h1 : i / (q + 1) < r := (Nat.div_lt_iff_lt_mul (Nat.succ_pos _)).2 hc
    exact le_trans (Nat.succ_le_of_lt h1) hr.le
  · rw [if_neg hc]
    have hq0 : 0 < q := by
      rcases Nat.eq_zero_or_pos q with h0 | h0
      · subst h0; simp at hqr hc; omega
      · exact h0
    have h2 : i - r * (q + 1) < (k - r) * q := by
      have hmul : (k - r) * q = k * q - r * q := Nat.sub_mul _ _ _
      have hrq : r * q ≤ k * q := Nat.mul_le_mul_right _ hr.le
      have hexp : r * (q + 1) = r * q + r := by ring
      omega
    set d := (i - r * (q + 1)) / q with hd
    have h3 : d < k - r := by rw [hd]; exact (Nat.div_lt_iff_lt_mul hq0).2 h2
    omega

theorem ntileCumul_zero (k n : ℕ) : ntileCumul k n 0 = 0 := by
  simp [ntileCumul]

theorem ntileCumul_self (k n : ℕ) (hk : 0 < k) : ntileCumul k n k = n := by
  obtain ⟨q, hq⟩ : ∃ x, n / k = x := ⟨_, rfl⟩
  obtain ⟨r, hr'⟩ : ∃ x, n % k = x := ⟨_, rfl⟩
  have hqr : k * q + r = n := by rw [← hq, ← hr']; exact Nat.div_add_mod n k
  have hr : r < k := by rw [← hr']; exact Nat.mod_lt _ hk
  rw [ntileCumul_eq_qr k n k q r hq hr']
  rw [if_neg (by omega)]
  have hmul : (k - r) * q = k * q - r * q := Nat.sub_mul _ _ _
  have hrq : r * q ≤ k * q := Nat.mul_le_mul_right _ hr.le
  have hexp : r * (q + 1) = r * q + r := by ring
  omega

theorem ntileCumul_mono (k n : ℕ) {b b' : ℕ} (h : b ≤ b') :
    ntileCumul k n b ≤ ntileCumul k n b' := by
  obtain ⟨q, hq⟩ : ∃ x, n / k = x := ⟨_, rfl⟩
  obtain ⟨r, hr⟩ : ∃ x, n % k = x := ⟨_, rfl⟩
  rw [ntileCumul_eq_qr k n b q r hq hr, ntileCumul_eq_qr k n b' q r hq hr]
  by_cases hb' : b' ≤ r
  · rw [if_pos (le_trans h hb'), if_pos hb']
    exact Nat.mul_le_mul_right _ h
  · rw [if_neg hb']
    by_cases hb : b ≤ r
    · rw [if_pos hb]
      have h1 : b * (q + 1) ≤ r * (q + 1) := Nat.mul_le_mul_right _ hb
      omega
    · rw [if_neg hb]
      have h1 : (b - r) * q ≤ (b' - r) * q := Nat.mul_le_mul_right _ (by omega)
      omega

theorem ntileBucket_le_iff (k n i b : ℕ) (hk : 0 < k) (hi : i < n) (hb : b ≤ k) :
    ntileBucket k n i ≤ b ↔ i < ntileCumul k n b := by
  obtain ⟨q, hq⟩ : ∃ x, n / k = x := ⟨_, rfl⟩
  obtain ⟨r, hr'⟩ : ∃ x, n % k = x := ⟨_, rfl⟩
  have hqr : k * q + r = n := by rw [← hq, ← hr']; exact Nat.div_add_mod n k
  have hr : r < k := by rw [← hr']; exact Nat.mod_lt _ hk
  rw [ntileBucket_eq_qr k n i q r hq hr', ntileCumul_eq_qr k n b q r hq hr']
  by_cases hc : i < r * (q + 1)
  · rw [if_pos hc]
    by_cases hbr : b ≤ r
    · rw [if_pos hbr]
      have h1 : i / (q + 1) < b ↔ i < b * (q + 1) :=
        Nat.div_lt_iff_lt_mul (Nat.succ_pos _)
      set x := i / (q + 1) with hx
      omega
    · rw [if_neg hbr]
      have h1 : i / (q + 1) < r := (Nat.div_lt_iff_lt_mul (Nat.succ_pos _)).2 hc
      set x := i / (q + 1) with hx
      omega
  · rw [if_neg hc]
    have hq0 : 0 < q := by
      rcases Nat.eq_zero_or_pos q with h0 | h0
      · subst h0; simp at hqr hc; omega
      · exact h0
    by_cases hbr : b ≤ r
    · rw [if_pos hbr]
      have h1 : b * (q + 1) ≤ r * (q + 1) := Nat.mul_le_mul_right _ hbr
      have h2 : (b - r) * q = 0 := by rw [Nat.sub_eq_zero_of_le hbr, Nat.zero_mul]
      have h3 : 0 ≤ (i - r * (q + 1)) / q := Nat.zero_le _
      omega
    · rw [if_neg hbr]
      have h1 : (i - r * (q + 1)) / q < b - r ↔ i - r * (q + 1) < (b - r) * q :=
        Nat.div_lt_iff_lt_mul hq0
      have h2 : 0 ≤ (i - r * (q + 1)) / q := Nat.zero_le _
      omega

theorem ntileBucket_eq_iff (k n i b : ℕ) (hk : 0 < k) (hi : i < n)
    (hb1 : 1 ≤ b) (hb : b ≤ k) :
    ntileBucket k n i = b ↔
      ntileCumul k n (b - 1) ≤ i ∧ i < ntileCumul k n b := by
  have h1 := ntileBucket_le_iff k n i b hk hi hb
  have h2 := ntileBucket_le_iff k n i (b - 1) hk hi (by omega)
  have h3 := ntileBucket_pos k n i
  omega

theorem ntileCumul_sub (k n b : ℕ) (hb1 : 1 ≤ b) :
    ntileCumul k n b - ntileCumul k n (b - 1) =
      if b ≤ n % k then n / k + 1 else n / k := by
  obtain ⟨q, hq⟩ : ∃ x, n / k = x := ⟨_, rfl⟩
  obtain ⟨r, hr⟩ : ∃ x, n % k = x := ⟨_, rfl⟩
  rw [ntileCumul_eq_qr k n b q r hq hr, ntileCumul_eq_qr k n (b - 1) q r hq hr, hq, hr]
  by_cases hbr : b ≤ r
  · rw [if_pos hbr, if_pos (by omega : b - 1 ≤ r), if_pos hbr]
    have h1 : (b - 1) * (q + 1) + (q + 1) = b * (q + 1) := by
      have hb' : b - 1 + 1 = b := by omega
      calc (b - 1) * (q + 1) + (q + 1) = (b - 1 + 1) * (q + 1) := by ring
        _ = b * (q + 1) := by rw [hb']
    omega
  · rw [if_neg hbr, if_neg hbr]
    by_cases hbr' : b - 1 ≤ r
    · have hbeq : b - 1 = r := by omega
      rw [if_pos hbr', hbeq]
      have h2 : b - r = 1 := by omega
      rw [h2]
      omega
    · rw [if_neg hbr']
      have h1 : (b - 1 - r) * q + q = (b - r) * q := by
        have hb' : b - 1 - r + 1 = b - r := by omega
        calc (b - 1 - r) * q + q = (b - 1 - r + 1) * q := by ring
          _ = (b - r) * q := by rw [hb']
      have h2 : (b - 1 - r) * q ≤ (b - r) * q :=
        Nat.mul_le_mul_right _ (by omega)
      omega

theorem card_ntileBucket_eq (k n b : ℕ) (hk : 0 < k) (hb1 : 1 ≤ b) (hb : b ≤ k) :
    ((Finset.range n).filter (fun p => ntileBucket k n p = b)).card =
      ntileCumul k n b - ntileCumul k n (b - 1) := by
  have hset : (Finset.range n).filter (fun p => ntileBucket k n p = b) =
      Finset.Ico (ntileCumul k n (b - 1)) (ntileCumul k n b) := by
    ext p
    simp only [Finset.mem_filter, Finset.mem_range, Finset.mem_Ico]
    constructor
    · rintro ⟨hp, hbp⟩
      exact (ntileBucket_eq_iff k n p b hk hp hb1 hb).1 hbp
    · rintro ⟨h1, h2⟩
      have hcn : ntileCumul k n b ≤ n := by
        have := ntileCumul_mono k n hb
        rwa [ntileCumul_self k n hk] at this
      have hp : p < n := lt_of_lt_of_le h2 hcn
      exact ⟨hp, (ntileBucket_eq_iff k n p b hk hp hb1 hb).2 ⟨h1, h2⟩⟩
  rw [hset, Nat.card_Ico]

/-- `List.countP` over `List.range n` as a `Finset` cardinality. -/
theorem countP_range_eq_card (P : ℕ → Prop) [DecidablePred P] (n : ℕ) :
    (List.range n).countP (fun i => decide (P i)) =
      ((Finset.range n).filter P).card := by
  induction n with
  | zero => simp
  | succ n ih =>
    rw [List.range_succ, List.countP_append, Finset.range_succ, Finset.filter_insert]
    by_cases h : P n
    · rw [if_pos h, Finset.card_insert_of_not_mem (by simp), ← ih]
      simp [List.countP_cons, h]
    · rw [if_neg h, ← ih]
      simp [List.countP_cons, h]

/-! ## Stable ordinal position: `ntilePos` is a bijection of `0..n-1` -/

section NtilePos

variable (lt : ℚ → ℚ → Prop) [DecidableRel lt] (keys : List ℚ)

theorem ntilePos_lt (hirr : ∀ a, ¬ lt a a) {i : ℕ} (hi : i < keys.length) :
    ntilePos lt keys i < keys.length := by
  have hsub : (Finset.range keys.length).filter
      (fun j => lt (keyAt keys j) (keyAt keys i) ∨ (keyAt keys j = keyAt keys i ∧ j < i)) ⊆
      (Finset.range keys.length).erase i := by
    intro j hj
    simp only [Finset.mem_filter] at hj
    simp only [Finset.mem_erase]
    refine ⟨?_, hj.1⟩
    rintro rfl
    rcases hj.2 with h | h
    · exact hirr _ h
    · omega
  have h1 : ((Finset.range keys.length).filter
      (fun j => lt (keyAt keys j) (keyAt keys i) ∨ (keyAt keys j = keyAt keys i ∧ j < i))).card ≤
      ((Finset.range keys.length).erase i).card := Finset.card_le_card hsub
  have h2 : ((Finset.range keys.length).erase i).card = keys.length - 1 := by
    rw [Finset.card_erase_of_mem (Finset.mem_range.2 hi), Finset.card_range]
  unfold ntilePos
  omega

theorem ntilePos_eq_card (i : ℕ) :
    ntilePos lt keys i = (beforeSet lt keys i).card := rfl

theorem ntilePos_strict (hirr : ∀ a, ¬ lt a a)
    (htrans : ∀ a b c, lt a b → lt b c → lt a c)
    {i j : ℕ} (hi : i < keys.length) (hj : j < keys.length)
    (hne : lt (keyAt keys i) (keyAt keys j) ∨ (keyAt keys i = keyAt keys j ∧ i < j)) :
    ntilePos lt keys i < ntilePos lt keys j := by
  have hsub : insert i (beforeSet lt keys i) ⊆ beforeSet lt keys j := by
    intro m hm
    rcases Finset.mem_insert.1 hm with rfl | hmA
    · simp only [beforeSet, Finset.mem_filter, Finset.mem_range]
      exact ⟨hi, hne⟩
    · simp only [beforeSet, Finset.mem_filter, Finset.mem_range] at hmA
      simp only [beforeSet, Finset.mem_filter, Finset.mem_range]
      refine ⟨hmA.1, ?_⟩
      rcases hmA.2 with h1 | h1
      · rcases hne with h2 | h2
        · exact Or.inl (htrans _ _ _ h1 h2)
        · exact Or.inl (h2.1 ▸ h1)
      · rcases hne with h2 | h2
        · exact Or.inl (h1.1 ▸ h2)
        · exact Or.inr ⟨h1.1.trans h2.1, lt_of_lt_of_le h1.2 (le_of_lt h2.2)⟩
  have hiA : i ∉ beforeSet lt keys i := by
    simp only [beforeSet, Finset.mem_filter, Finset.mem_range]
    rintro ⟨-, h | h⟩
    · exact hirr _ h
    · omega
  have h1 : (insert i (beforeSet lt keys i)).card = (beforeSet lt keys i).card + 1 :=
    Finset.card_insert_of_not_mem hiA
  have h2 : (insert i (beforeSet lt keys i)).card ≤ (beforeSet lt keys j).card :=
    Finset.card_le_card hsub
  rw [ntilePos_eq_card, ntilePos_eq_card]
  omega

theorem ntilePos_injOn (hirr : ∀ a, ¬ lt a a)
    (htrans : ∀ a b c, lt a b → lt b c → lt a c)
    (htri : ∀ a b, lt a b ∨ a = b ∨ lt b a) :
    Set.InjOn (fun i => ntilePos lt keys i) (Finset.range keys.length) := by
  intro i hi j hj hij
  simp only [Finset.coe_range, Set.mem_Iio] at hi hj
  by_contra hne
  rcases htri (keyAt keys i) (keyAt keys j) with h | h | h
  · exact absurd hij (Nat.ne_of_lt (ntilePos_strict lt keys hirr htrans hi hj (Or.inl h)))
  · rcases Nat.lt_trichotomy i j with h2 | h2 | h2
    · exact absurd hij
        (Nat.ne_of_lt (ntilePos_strict lt keys hirr htrans hi hj (Or.inr ⟨h, h2⟩)))
    · exact hne h2
    · exact absurd hij.symm
        (Nat.ne_of_lt (ntilePos_strict lt keys hirr htrans hj hi (Or.inr ⟨h.symm, h2⟩)))
  · exact absurd hij.symm (Nat.ne_of_lt (ntilePos_strict lt keys hirr htrans hj hi (Or.inl h)))

theorem ntilePos_image (hirr : ∀ a, ¬ lt a a)
    (htrans : ∀ a b c, lt a b → lt b c → lt a c)
    (htri : ∀ a b, lt a b ∨ a = b ∨ lt b a) :
    Finset.image (fun i => ntilePos lt keys i) (Finset.range keys.length) =
      Finset.range keys.length := by
  apply Finset.eq_of_subset_of_card_le
  · intro x hx
    obtain ⟨i, hi, rfl⟩ := Finset.mem_image.1 hx
    exact Finset.mem_range.2 (ntilePos_lt lt keys hirr (Finset.mem_range.1 hi))
  · rw [Finset.card_image_of_injOn (ntilePos_injOn lt keys hirr htrans htri)]

theorem card_filter_ntilePos_comp (hirr : ∀ a, ¬ lt a a)
    (htrans : ∀ a b c, lt a b → lt b c → lt a c)
    (htri : ∀ a b, lt a b ∨ a = b ∨ lt b a)
    (Q : ℕ → Prop) [DecidablePred Q] :
    ((Finset.range keys.length).filter (fun i => Q (ntilePos lt keys i))).card =
      ((Finset.range keys.length).filter Q).card := by
  have himg : Finset.image (fun i => ntilePos lt keys i)
      ((Finset.range keys.length).filter (fun i => Q (ntilePos lt keys i))) =
      (Finset.range keys.length).filter Q := by
    ext x
    simp only [Finset.mem_image, Finset.mem_filter]
    constructor
    · rintro ⟨i, ⟨hi, hQ⟩, rfl⟩
      exact ⟨Finset.mem_range.2 (ntilePos_lt lt keys hirr (Finset.mem_range.1 hi)), hQ⟩
    · rintro ⟨hx, hQ⟩
      have hx2 : x ∈ Finset.image (fun i => ntilePos lt keys i)
          (Finset.range keys.length) := by
        rw [ntilePos_image lt keys hirr htrans htri]; exact hx
      obtain ⟨i, hi, rfl⟩ := Finset.mem_image.1 hx2
      exact ⟨i, ⟨hi, hQ⟩, rfl⟩
  rw [← himg]
  rw [Finset.card_image_of_injOn
    ((ntilePos_injOn lt keys hirr htrans htri).mono (by
      intro x hx
      simp only [Finset.coe_filter, Set.mem_setOf_eq] at hx
      simp only [Finset.coe_range, Set.mem_Iio]
      exact Finset.mem_range.1 hx.1))]

end NtilePos

/-! ## NTILE score lists -/

theorem ntileScores_length (k : ℕ) (lt : ℚ → ℚ → Prop) [DecidableRel lt]
    (keys : List ℚ) : (ntileScores k lt keys).length = keys.length := by
  simp [ntileScores]

theorem ntileScores_getD (k : ℕ) (lt : ℚ → ℚ → Prop) [DecidableRel lt]
    (keys : List ℚ) {i : ℕ} (hi : i < keys.length) :
    (ntileScores k lt keys).getD i 0 =
      ntileBucket k keys.length (ntilePos lt keys i) := by
  have hlen : i < ((List.range keys.length).map
      (fun i => ntileBucket k keys.length (ntilePos lt keys i))).length := by
    simpa using hi
  simp only [ntileScores]
  rw [List.getD_eq_getElem _ _ hlen, List.getElem_map, List.getElem_range]

/-- The quantile-binning contract holds for `NTILE` over any strict
total order on the keys. -/
theorem ntileSpec_of_strictOrder (k : ℕ) (lt : ℚ → ℚ → Prop) [DecidableRel lt]
    (keys : List ℚ) (hk : 1 ≤ k)
    (hirr : ∀ a, ¬ lt a a)
    (htrans : ∀ a b c, lt a b → lt b c → lt a c)
    (htri : ∀ a b, lt a b ∨ a = b ∨ lt b a) :
    ntileSpecHolds k keys (ntileScores k lt keys) lt := by
  refine ⟨ntileScores_length k lt keys, ?_, ?_, ?_⟩
  · intro s hs
    simp only [ntileScores, List.mem_map, List.mem_range] at hs
    obtain ⟨i, hi, rfl⟩ := hs
    exact ⟨ntileBucket_pos _ _ _,
      ntileBucket_le _ _ _ hk (ntilePos_lt lt keys hirr hi)⟩
  · intro b₁ b₂ hb11 hb1k hb21 hb2k
    have hcount : ∀ b, 1 ≤ b → b ≤ k →
        (ntileScores k lt keys).countP (fun s => decide (s = b)) =
          if b ≤ keys.length % k then keys.length / k + 1 else keys.length / k := by
      intro b hb1 hbk
      unfold ntileScores
      rw [List.countP_map]
      have hcomp : ((fun s => decide (s = b)) ∘
          (fun i => ntileBucket k keys.length (ntilePos lt keys i))) =
          fun i => decide (ntileBucket k keys.length (ntilePos lt keys i) = b) := rfl
      rw [hcomp,
        countP_range_eq_card (fun i => ntileBucket k keys.length (ntilePos lt keys i) = b),
        card_filter_ntilePos_comp lt keys hirr htrans htri
          (fun p => ntileBucket k keys.length p = b),
        card_ntileBucket_eq k keys.length b hk hb1 hbk,
        ntileCumul_sub k keys.length b hb1]
    rw [hcount b₁ hb11 hb1k, hcount b₂ hb21 hb2k]
    split <;> split <;> omega
  · intro i j hi hj
    constructor
    · intro hlt
      rw [ntileScores_getD k lt keys hi, ntileScores_getD k lt keys hj]
      exact ntileBucket_mono _ _
        (le_of_lt (ntilePos_strict lt keys hirr htrans hi hj (Or.inl hlt)))
    · intro heq hij
      rw [ntileScores_getD k lt keys hi, ntileScores_getD k lt keys hj]
      exact ntileBucket_mono _ _
        (le_of_lt (ntilePos_strict lt keys hirr htrans hi hj (Or.inr ⟨heq, hij⟩)))

/-- Claim C7: for every ranking over `n` rows with bin count `k`
(salary quartiles `k = 4`, RFM quintiles `k = 5`), and for both sort
directions used by the queries, the `NTILE` scoring partitions the rows:
one bin in `1..k` per row with none duplicated or dropped, bin sizes
differing by at most one, bins contiguous and monotone non-decreasing
with the ordering key, ties placed by stable ordinal position, and when
`k` exceeds `n` some bins are simply empty while no row is lost. -/
theorem claim_C7_quantile_partition (keys : List ℚ) (k : ℕ) (hk : 1 ≤ k) :
    ntileSpecHolds k keys (ntileAsc k keys) (fun a b => a < b) ∧
    ntileSpecHolds k keys (ntileDesc k keys) (fun a b => b < a) := by
  constructor
  · exact ntileSpec_of_strictOrder k _ keys hk (fun a => lt_irrefl a)
      (fun a b c h1 h2 => lt_trans h1 h2) (fun a b => lt_trichotomy a b)
  · refine ntileSpec_of_strictOrder k _ keys hk (fun a => lt_irrefl a)
      (fun a b c h1 h2 => lt_trans h2 h1) (fun a b => ?_)
    rcases lt_trichotomy a b with h | h | h
    · exact Or.inr (Or.inr h)
    · exact Or.inr (Or.inl h)
    · exact Or.inl h

/-- Witness for claim C7 at a concrete key list and bin count. -/
theorem claim_C7_quantile_partition_witness :
    1 ≤ 4 ∧
      (ntileSpecHolds 4 [3, 1, 2, 1, 5] (ntileAsc 4 [3, 1, 2, 1, 5]) (fun a b => a < b) ∧
       ntileSpecHolds 4 [3, 1, 2, 1, 5] (ntileDesc 4 [3, 1, 2, 1, 5]) (fun a b => b < a)) :=
  ⟨by norm_num, claim_C7_quantile_partition [3, 1, 2, 1, 5] 4 (by norm_num)⟩

/-! ## Claim C1: RFM score polarity -/

unseal Rat.add Rat.mul Rat.sub Rat.inv in
/-- Claim C1 (refuted on `src/api/main.py`, holds on
`src/scripts/run_analytics.py`): on a five-customer cohort where
customer 5 is at once the most recent purchaser, the most frequent buyer
and the top spender, the script's scoring gives that customer quintile 5
on all three measures (the polarity the claim states), while the API
endpoint — `NTILE(5) OVER (ORDER BY recency_days ASC)`,
`ORDER BY frequency DESC`, `ORDER BY monetary_value DESC` — gives the
same customer score 1 on all three measures: recency quintile 5 goes to
the least recent purchaser and frequency/monetary quintile 5 to the
lowest values, the exact opposite of the claimed (and intended)
polarity.  Rows are listed by descending monetary value, so the first
row is customer 5. -/
theorem claim_C1_rfm_polarity_eval :
    (script_customer_rfm rfmCustomers rfmSales 19500).map
        (fun r => (r.r_score, r.f_score, r.m_score)) =
      [(5, 5, 5), (4, 4, 4), (3, 3, 3), (2, 2, 2), (1, 1, 1)] ∧
    (get_customer_rfm_analysis rfmCustomers rfmSales 19500 50).map
        (fun r => (r.r_score, r.f_score, r.m_score)) =
      [(1, 1, 1), (2, 2, 2), (3, 3, 3), (4, 4, 4), (5, 5, 5)] := by
  constructor
  · decide
  · decide

/-! ## Claim C3: growth-rate formula -/

unseal Rat.add Rat.mul Rat.sub Rat.inv in
/-- Claim C3 (refuted on `src/api/main.py`, holds on
`src/scripts/run_analytics.py`): on the spec's scenario
Jan 2023 = 1000, Feb 2023 = 0, Mar 2023 = 500 the script reports
(months listed most recent first) Mar growth = undefined (previous
revenue zero), Feb growth = −100%, Jan growth = undefined (no previous
month) — exactly as claimed.  The API endpoint computes
`LAG(revenue, 1) OVER (ORDER BY month DESC)`, i.e. lags against the
*following* month: on monthly revenues Jan 2023 = 100, Feb 2023 = 200
it reports Feb growth = undefined and Jan growth = −50%, where the
claim requires Feb growth = +100% and Jan growth = undefined.
(Month keys: 24277 = 2023-01, 24278 = 2023-02, 24279 = 2023-03.) -/
theorem claim_C3_growth_rate_eval :
    (script_monthly_sales_trend trendSalesScenario).map
        (fun r => (r.month, r.growth_rate)) =
      [(24279, none), (24278, some (-100)), (24277, none)] ∧
    (get_monthly_sales_trend trendSalesGrowing 12).map
        (fun r => (r.month, r.growth_rate)) =
      [(24278, none), (24277, some (-50))] := by
  constructor
  · decide
  · decide

/-! ## Claim C2: growth computed before truncation -/

theorem withLag_take (l : List MonthGroup) :
    ∀ (m : ℕ) (prev : Option ℚ), withLag prev (l.take m) = (withLag prev l).take m := by
  induction l with
  | nil => intro m prev; simp [withLag]
  | cons g rest ih =>
    intro m prev
    cases m with
    | zero => simp [withLag]
    | succ m => simp [withLag, ih m (some g.revenue)]

theorem trendRows_take (l : List MonthGroup) (m : ℕ) :
    trendRows (l.take m) = (trendRows l).take m := by
  unfold trendRows
  rw [withLag_take, List.map_take]

theorem withLag_map_month (l : List MonthGroup) :
    ∀ prev, (withLag prev l).map (fun gp => gp.1.month) = l.map (fun g => g.month) := by
  induction l with
  | nil => intro prev; simp [withLag]
  | cons g rest ih => intro prev; simp [withLag, ih (some g.revenue)]

theorem trendRows_map_month (l : List MonthGroup) :
    (trendRows l).map (fun r => r.month) = l.map (fun g => g.month) := by
  unfold trendRows
  rw [List.map_map]
  exact withLag_map_month l none

theorem monthsDesc_sorted (sales : List Sale) :
    List.Sorted (fun a b : MonthGroup => b.month ≤ a.month) (monthsDesc sales) := by
  unfold monthsDesc
  exact @List.sorted_insertionSort _ _ _
    ⟨fun a b => Int.le_total b.month a.month⟩
    ⟨fun a b c h1 h2 => le_trans h2 h1⟩
    (monthlyGroups sales)

theorem trendRows_sorted (l : List MonthGroup)
    (h : List.Pairwise (fun g h => h.month ≤ g.month) l) :
    List.Sorted (fun a b : TrendRow => b.month ≤ a.month) (trendRows l) := by
  have h1 : List.Pairwise (fun x y : Int => y ≤ x) (l.map (fun g => g.month)) :=
    List.pairwise_map.2 h
  rw [← trendRows_map_month] at h1
  exact List.pairwise_map.1 h1

/-- Claim C2: in the API monthly trend, truncating to the `months` most
recent months commutes with the growth computation — every reported
month's values are identical to those of the full-history computation
(`apiTrendFullHistory`) truncated afterwards.  (The SQL's `LIMIT` sits
inside the CTE, but because its `LAG` window is ordered `month DESC`,
each kept row's lag partner is also kept, so the result provably equals
compute-over-full-history-then-truncate.)  In the script's trend query
the windows are computed over the full history with no limit and the
`LIMIT 12` is applied last, so every reported row is literally a row of
the full-history computation `scriptTrendFullHistory`, moving average
included. -/
theorem claim_C2_truncate_after_compute (sales : List Sale) (months : ℕ) :
    get_monthly_sales_trend sales months = (apiTrendFullHistory sales).take months ∧
    (∀ r ∈ script_monthly_sales_trend sales, r ∈ scriptTrendFullHistory sales) := by
  constructor
  · unfold get_monthly_sales_trend apiTrendFullHistory
    rw [← trendRows_take]
    exact List.Sorted.insertionSort_eq
      (trendRows_sorted _ (List.Pairwise.sublist (List.take_sublist _ _) (monthsDesc_sorted sales)))
  · intro r hr
    unfold script_monthly_sales_trend at hr
    have h1 := List.take_subset 12 _ hr
    exact (List.perm_insertionSort
      (fun a b : ScriptTrendRow => b.month ≤ a.month) _).mem_iff.1 h1

unseal Rat.add Rat.mul Rat.sub Rat.inv in
/-- Witness for claim C2 at a concrete sale collection. -/
theorem claim_C2_truncate_after_compute_witness :
    (get_monthly_sales_trend trendSalesScenario 2 =
      (apiTrendFullHistory trendSalesScenario).take 2) ∧
    ((script_monthly_sales_trend trendSalesScenario).getD 0 default ∈
        script_monthly_sales_trend trendSalesScenario ∧
      (script_monthly_sales_trend trendSalesScenario).getD 0 default ∈
        scriptTrendFullHistory trendSalesScenario) :=
  ⟨(claim_C2_truncate_after_compute trendSalesScenario 2).1,
    by decide,
    (claim_C2_truncate_after_compute trendSalesScenario 2).2 _ (by decide)⟩

/-! ## Claim C10: `execute_query` masks every execution error -/

/-- Claim C10: when query execution raises, `execute_query` catches the
exception and returns the empty list, so the endpoint responds with an
empty result collection — indistinguishable from a genuinely empty
fetch — and the error never propagates to the caller. -/
theorem claim_C10_execute_query_masks_errors (e : String) :
    execute_query (Except.error e : Except String (List SalaryRow)) = [] ∧
    salaryEndpointResponse (Except.error e) = { employees := [] } ∧
    execute_query (Except.error e : Except String (List SalaryRow)) =
      execute_query (Except.ok []) :=
  ⟨rfl, rfl, rfl⟩

/-! ## Claim C5: orphaned references -/

/-- Counterexample to claim C5: an active employee whose `dept_id` (99)
matches no department does not appear in the salary analysis output at
all — the inner join drops the row instead of producing it with an
"Unknown" department (no such fallback exists in the query). -/
theorem claim_C5_counterexample :
    get_employee_salary_analysis [orphanEmployee] [deptEng] 50 = [] := by
  decide

/-- Claim C5 amended: a derived salary-analysis row is produced only for
employees whose department reference resolves; an active employee whose
`dept_id` matches no department is silently dropped by the inner join
(no placeholder row, no failure): adding such an employee anywhere in
the input leaves the output unchanged. -/
theorem claim_C5_amended_orphan_dropped
    (emps₁ emps₂ : List Employee) (departments : List Department)
    (limit : ℕ) (e : Employee)
    (h : ∀ d ∈ departments, d.dept_id ≠ e.dept_id) :
    get_employee_salary_analysis (emps₁ ++ e :: emps₂) departments limit =
      get_employee_salary_analysis (emps₁ ++ emps₂) departments limit := by
  have hnil : departments.filter (fun d => d.dept_id == e.dept_id) = [] := by
    rw [List.filter_eq_nil_iff]
    intro d hd
    simpa using h d hd
  have hbase : activeEmpDept (emps₁ ++ e :: emps₂) departments =
      activeEmpDept (emps₁ ++ emps₂) departments := by
    unfold activeEmpDept
    by_cases ha : e.is_active
    · simp [List.filter_append, List.filter_cons, ha, hnil]
    · simp [List.filter_append, List.filter_cons, ha]
  have hstats : salaryStats (emps₁ ++ e :: emps₂) departments =
      salaryStats (emps₁ ++ emps₂) departments := by
    unfold salaryStats
    rw [hbase]
  unfold get_employee_salary_analysis
  rw [hstats]

/-- Witness for the amended claim C5. -/
theorem claim_C5_amended_witness :
    (∀ d ∈ [deptEng], d.dept_id ≠ orphanEmployee.dept_id) ∧
    get_employee_salary_analysis ([soloEmployee] ++ orphanEmployee :: []) [deptEng] 50 =
      get_employee_salary_analysis ([soloEmployee] ++ []) [deptEng] 50 :=
  ⟨by decide,
    claim_C5_amended_orphan_dropped [soloEmployee] [] [deptEng] 50 orphanEmployee (by decide)⟩

/-! ## Claim C6: revenue per employee for empty departments -/

/-- Counterexample to claim C6: a department with zero active employees
gets a SQL-null (absent) `revenue_per_employee` —
`COALESCE(SUM(...), 0) / NULLIF(COUNT(DISTINCT emp_id), 0)` is `NULL`
when the employee count is zero, because only the numerator is
coalesced — not the sentinel zero the claim states. -/
theorem claim_C6_counterexample :
    (get_department_performance [emptyDept] [] []).map
        (fun r => r.revenue_per_employee) = [none] ∧
    (none : Option ℚ) ≠ some 0 := by
  constructor
  · decide
  · decide

/-- Claim C6 amended: in the department roll-up, a department with zero
active employees gets an absent (`NULL`) revenue-per-employee ratio —
never a division-by-zero error — while a department with at least one
active employee gets the coalesced completed-sale revenue divided by the
distinct active-employee count, rounded to an integer. -/
theorem claim_C6_amended_revenue_per_employee
    (departments : List Department) (employees : List Employee) (sales : List Sale) :
    ∀ row ∈ get_department_performance departments employees sales,
      (row.employee_count = 0 → row.revenue_per_employee = none) ∧
      (0 < row.employee_count →
        row.revenue_per_employee =
          some (round0 (row.total_revenue / (row.employee_count : ℚ)))) := by
  intro row hrow
  unfold get_department_performance at hrow
  have hrow2 := (List.perm_insertionSort _ _).mem_iff.1 hrow
  obtain ⟨d, hd, rfl⟩ := List.mem_map.1 hrow2
  constructor
  · intro h0
    dsimp only at h0 ⊢
    rw [if_pos h0]
  · intro hpos
    dsimp only at hpos ⊢
    rw [if_neg (by omega)]

/-- Witness for the amended claim C6. -/
theorem claim_C6_amended_witness :
    ((get_department_performance [emptyDept] [] []).getD 0 default ∈
        get_department_performance [emptyDept] [] []) ∧
    ((((get_department_performance [emptyDept] [] []).getD 0 default).employee_count = 0 →
        ((get_department_performance [emptyDept] [] []).getD 0 default).revenue_per_employee =
          none) ∧
      (0 < ((get_department_performance [emptyDept] [] []).getD 0 default).employee_count →
        ((get_department_performance [emptyDept] [] []).getD 0 default).revenue_per_employee =
          some (round0 (((get_department_performance [emptyDept] [] []).getD 0
            default).total_revenue /
            ((((get_department_performance [emptyDept] [] []).getD 0
              default).employee_count : ℕ) : ℚ))))) :=
  ⟨by decide, claim_C6_amended_revenue_per_employee [emptyDept] [] [] _ (by decide)⟩

/-! ## Claim C8: only completed sales contribute -/

theorem filter_skip_mid (p : Sale → Bool) (s : Sale) (l₁ l₂ : List Sale)
    (hp : p s = false) :
    (l₁ ++ s :: l₂).filter p = (l₁ ++ l₂).filter p := by
  rw [List.filter_append, List.filter_append, List.filter_cons_of_neg (by simp [hp])]

theorem status_beq_false {s : Sale} (hs : s.status ≠ SaleStatus.completed) :
    (s.status == SaleStatus.completed) = false := by
  simpa using hs

theorem completedSales_skip (s : Sale) (l₁ l₂ : List Sale)
    (hs : s.status ≠ SaleStatus.completed) :
    completedSales (l₁ ++ s :: l₂) = completedSales (l₁ ++ l₂) :=
  filter_skip_mid _ s l₁ l₂ (status_beq_false hs)

theorem customerMetrics_skip (customers : List Customer) (s : Sale)
    (l₁ l₂ : List Sale) (today sentinel : Int)
    (hs : s.status ≠ SaleStatus.completed) :
    customerMetrics customers (l₁ ++ s :: l₂) today sentinel =
      customerMetrics customers (l₁ ++ l₂) today sentinel := by
  unfold customerMetrics
  apply List.filterMap_congr
  intro c _
  rw [filter_skip_mid _ s l₁ l₂ (by simp [status_beq_false hs])]

theorem productAgg_skip (products : List Product) (s : Sale)
    (l₁ l₂ : List Sale) (hs : s.status ≠ SaleStatus.completed) :
    productAgg products (l₁ ++ s :: l₂) = productAgg products (l₁ ++ l₂) := by
  unfold productAgg
  apply List.filterMap_congr
  intro p _
  rw [filter_skip_mid _ s l₁ l₂ (by simp [status_beq_false hs])]

theorem deptJoinRows_skip (d : Department) (employees : List Employee)
    (s : Sale) (l₁ l₂ : List Sale) (hs : s.status ≠ SaleStatus.completed) :
    deptJoinRows d employees (l₁ ++ s :: l₂) = deptJoinRows d employees (l₁ ++ l₂) := by
  unfold deptJoinRows
  have hfun : (fun (e : Employee) =>
      let ss := (l₁ ++ s :: l₂).filter
        (fun x => x.emp_id == e.emp_id && x.status == SaleStatus.completed)
      if ss.isEmpty then [((some e : Option Employee), (none : Option Sale))]
      else ss.map (fun x => (some e, some x))) =
      (fun (e : Employee) =>
      let ss := (l₁ ++ l₂).filter
        (fun x => x.emp_id == e.emp_id && x.status == SaleStatus.completed)
      if ss.isEmpty then [((some e : Option Employee), (none : Option Sale))]
      else ss.map (fun x => (some e, some x))) := by
    funext e
    rw [filter_skip_mid _ s l₁ l₂ (by simp [status_beq_false hs])]
  rw [hfun]

/-- Claim C8: across the four analyses (monthly trend, RFM, product
ranking, department roll-up), only sales with status `completed`
contribute: inserting a pending or cancelled sale anywhere in the sale
collection leaves every analysis output — all revenue, frequency and
monetary values included — unchanged. -/
theorem claim_C8_only_completed_contribute
    (sales₁ sales₂ : List Sale) (s : Sale)
    (customers : List Customer) (products : List Product)
    (departments : List Department) (employees : List Employee)
    (months limit : ℕ) (today : Int)
    (hs : s.status ≠ SaleStatus.completed) :
    get_monthly_sales_trend (sales₁ ++ s :: sales₂) months =
      get_monthly_sales_trend (sales₁ ++ sales₂) months ∧
    get_customer_rfm_analysis customers (sales₁ ++ s :: sales₂) today limit =
      get_customer_rfm_analysis customers (sales₁ ++ sales₂) today limit ∧
    get_top_products products (sales₁ ++ s :: sales₂) limit =
      get_top_products products (sales₁ ++ sales₂) limit ∧
    get_department_performance departments employees (sales₁ ++ s :: sales₂) =
      get_department_performance departments employees (sales₁ ++ sales₂) := by
  refine ⟨?_, ?_, ?_, ?_⟩
  · have hg : monthlyGroups (sales₁ ++ s :: sales₂) = monthlyGroups (sales₁ ++ sales₂) := by
      unfold monthlyGroups
      rw [completedSales_skip s sales₁ sales₂ hs]
    unfold get_monthly_sales_trend monthsDesc
    rw [hg]
  · unfold get_customer_rfm_analysis
    rw [customerMetrics_skip customers s sales₁ sales₂ today 999 hs]
  · unfold get_top_products
    rw [productAgg_skip products s sales₁ sales₂ hs]
  · unfold get_department_performance
    have hfun : ∀ d : Department,
        deptJoinRows d employees (sales₁ ++ s :: sales₂) =
          deptJoinRows d employees (sales₁ ++ sales₂) :=
      fun d => deptJoinRows_skip d employees s sales₁ sales₂ hs
    simp only [hfun]

unseal Rat.add Rat.mul Rat.sub Rat.inv in
/-- Witness for claim C8 at a concrete input. -/
theorem claim_C8_only_completed_contribute_witness :
    pendingSale.status ≠ SaleStatus.completed ∧
    (get_monthly_sales_trend (rfmSales ++ pendingSale :: []) 12 =
        get_monthly_sales_trend (rfmSales ++ []) 12 ∧
      get_customer_rfm_analysis rfmCustomers (rfmSales ++ pendingSale :: []) 19500 50 =
        get_customer_rfm_analysis rfmCustomers (rfmSales ++ []) 19500 50 ∧
      get_top_products [oneProduct] (rfmSales ++ pendingSale :: []) 50 =
        get_top_products [oneProduct] (rfmSales ++ []) 50 ∧
      get_department_performance [deptEng] [soloEmployee] (rfmSales ++ pendingSale :: []) =
        get_department_performance [deptEng] [soloEmployee] (rfmSales ++ [])) :=
  ⟨by decide,
    claim_C8_only_completed_contribute rfmSales [] pendingSale rfmCustomers
      [oneProduct] [deptEng] [soloEmployee] 12 50 19500 (by decide)⟩

/-! ## Claim C9: no zero-frequency customer, sentinel unreachable -/

theorem customerMetrics_frequency_pos (customers : List Customer)
    (sales : List Sale) (today sentinel : Int) :
    ∀ mrow ∈ customerMetrics customers sales today sentinel, 1 ≤ mrow.frequency := by
  intro mrow hm
  unfold customerMetrics at hm
  obtain ⟨c, hc, heq⟩ := List.mem_filterMap.1 hm
  dsimp only at heq
  by_cases hms : 0 < (sales.filter
      (fun s => s.customer_id == c.customer_id && s.status == SaleStatus.completed)).length
  · rw [if_pos hms] at heq
    obtain rfl := Option.some.inj heq
    have hne : (sales.filter
        (fun s => s.customer_id == c.customer_id && s.status == SaleStatus.completed)) ≠ [] :=
      List.length_pos.1 hms
    have hmapne : ((sales.filter
        (fun s => s.customer_id == c.customer_id && s.status == SaleStatus.completed)).map
          (fun s => s.sale_id)) ≠ [] := by
      simpa using hne
    have hdedupne : ((sales.filter
        (fun s => s.customer_id == c.customer_id && s.status == SaleStatus.completed)).map
          (fun s => s.sale_id)).dedup ≠ [] := by
      rw [ne_eq, List.dedup_eq_nil]
      exact hmapne
    have := List.length_pos.2 hdedupne
    exact this
  · rw [if_neg hms] at heq
    exact absurd heq (by simp)

/-- Claim C9: a customer with zero completed sales never appears in the
scored RFM output — every returned row has frequency at least 1 — and
the recency sentinel fallback (the `COALESCE(..., 999)`) is unreachable:
the customer metrics are identical whatever the sentinel value, so `999`
can only occur as a genuine day difference, never as the fallback. -/
theorem claim_C9_rfm_excludes_non_purchasers (customers : List Customer)
    (sales : List Sale) (today : Int) (limit : ℕ) :
    (∀ row ∈ get_customer_rfm_analysis customers sales today limit, 1 ≤ row.frequency) ∧
    (∀ s₁ s₂ : Int, customerMetrics customers sales today s₁ =
      customerMetrics customers sales today s₂) := by
  constructor
  · intro row hrow
    unfold get_customer_rfm_analysis at hrow
    have h1 := List.take_subset _ _ hrow
    have h2 := (List.perm_insertionSort _ _).mem_iff.1 h1
    unfold rfmScoredApi at h2
    obtain ⟨i, hi, rfl⟩ := List.mem_map.1 h2
    rw [List.mem_range] at hi
    dsimp only
    have hil : i < (customerMetrics customers sales today 999).length := by simpa using hi
    have hmem : (customerMetrics customers sales today 999).getD i default ∈
        customerMetrics customers sales today 999 := by
      rw [List.getD_eq_getElem _ _ hil]
      exact List.getElem_mem hil
    exact customerMetrics_frequency_pos customers sales today 999 _ hmem
  · intro s₁ s₂
    unfold customerMetrics
    apply List.filterMap_congr
    intro c _
    dsimp only
    by_cases hms : 0 < (sales.filter
        (fun s => s.customer_id == c.customer_id && s.status == SaleStatus.completed)).length
    · rw [if_pos hms, if_pos hms]
      have hne : (sales.filter
          (fun s => s.customer_id == c.customer_id && s.status == SaleStatus.completed)) ≠ [] :=
        List.length_pos.1 hms
      obtain ⟨dd, hdd⟩ : ∃ dd, ((sales.filter
          (fun s => s.customer_id == c.customer_id && s.status == SaleStatus.completed)).map
            (fun s => s.sale_date)).max? = some dd := by
        cases hmx : ((sales.filter
            (fun s => s.customer_id == c.customer_id && s.status == SaleStatus.completed)).map
              (fun s => s.sale_date)).max? with
        | none =>
          exact absurd (List.map_eq_nil_iff.1 (List.max?_eq_none_iff.1 hmx)) hne
        | some dd => exact ⟨dd, rfl⟩
      rw [hdd]
    · rw [if_neg hms, if_neg hms]

unseal Rat.add Rat.mul Rat.sub Rat.inv in
/-- Witness for claim C9 at a concrete input. -/
theorem claim_C9_rfm_excludes_non_purchasers_witness :
    ((get_customer_rfm_analysis rfmCustomers rfmSales 19500 50).getD 0 default ∈
        get_customer_rfm_analysis rfmCustomers rfmSales 19500 50 ∧
      1 ≤ ((get_customer_rfm_analysis rfmCustomers rfmSales 19500 50).getD 0
        default).frequency) ∧
    customerMetrics rfmCustomers rfmSales 19500 999 =
      customerMetrics rfmCustomers rfmSales 19500 123 :=
  ⟨⟨by decide,
      (claim_C9_rfm_excludes_non_purchasers rfmCustomers rfmSales 19500 50).1 _ (by decide)⟩,
    (claim_C9_rfm_excludes_non_purchasers rfmCustomers rfmSales 19500 50).2 999 123⟩

/-! ## Claim C4: percentile rank -/

theorem map_getD_range {α β : Type} (l : List α) (f : α → β) (d : α) :
    (List.range l.length).map (fun i => f (l.getD i d)) = l.map f := by
  apply List.ext_getElem
  · simp
  · intro i h1 h2
    simp only [List.getElem_map, List.getElem_range]
    rw [List.getD_eq_getElem l d (by simpa using h2)]

theorem countP_lt_of_strictSorted :
    ∀ (l : List ℚ), l.Pairwise (fun a b => a < b) →
      ∀ (i : ℕ) (h : i < l.length),
        l.countP (fun y => decide (y < l.get ⟨i, h⟩)) = i := by
  intro l
  induction l with
  | nil => intro _ i h; simp at h
  | cons a t ih =>
    intro hpw i h
    have hpa : ∀ y ∈ t, a < y := (List.pairwise_cons.1 hpw).1
    have hpt : t.Pairwise (fun a b => a < b) := (List.pairwise_cons.1 hpw).2
    cases i with
    | zero =>
      rw [List.countP_cons]
      have h1 : t.countP (fun y => decide (y < (a :: t).get ⟨0, h⟩)) = 0 := by
        rw [List.countP_eq_zero]
        intro y hy
        simp only [List.get, decide_eq_true_eq]
        exact lt_asymm (hpa y hy)
      have h2 : (decide (a < (a :: t).get ⟨0, h⟩)) = false := by
        simp [List.get]
      rw [h1, h2]
      simp
    | succ j =>
      have hj : j < t.length := by simpa using h
      have hget : (a :: t).get ⟨j + 1, h⟩ = t.get ⟨j, hj⟩ := rfl
      rw [List.countP_cons]
      have hx : t.get ⟨j, hj⟩ ∈ t := List.get_mem t j hj
      have h2 : (decide (a < (a :: t).get ⟨j + 1, h⟩)) = true := by
        rw [hget]
        simp only [decide_eq_true_eq]
        exact hpa _ hx
      have h3 : t.countP (fun y => decide (y < (a :: t).get ⟨j + 1, h⟩)) = j := by
        rw [hget]
        exact ih hpt j hj
      rw [h2, h3]
      simp

theorem salaryStats_map_salary (employees : List Employee)
    (departments : List Department) :
    (salaryStats employees departments).map (fun r => r.salary) =
      (activeEmpDept employees departments).map (fun ed => ed.1.salary) := by
  unfold salaryStats
  dsimp only
  rw [List.map_map]
  exact map_getD_range (activeEmpDept employees departments) (fun ed => ed.1.salary) default

theorem salaryStats_percentile (employees : List Employee)
    (departments : List Department) :
    ∀ x ∈ salaryStats employees departments,
      x.percentile_rank = round2 (percentRankVal
        ((salaryStats employees departments).map (fun r => r.salary)) x.salary * 100) := by
  intro x hx
  rw [salaryStats_map_salary]
  unfold salaryStats at hx
  dsimp only at hx
  obtain ⟨i, hi, rfl⟩ := List.mem_map.1 hx
  rfl

unseal Rat.add Rat.mul Rat.sub Rat.inv in
/-- Counterexample to claim C4: for a single active employee the
reported percentile rank is `0`, not `100` — PostgreSQL `PERCENT_RANK()`
is `0` on a one-row partition. -/
theorem claim_C4_counterexample :
    (get_employee_salary_analysis [soloEmployee] [deptEng] 50).map
        (fun r => r.percentile_rank) = [0] ∧ (0 : ℚ) ≠ 100 := by
  constructor
  · decide
  · decide

unseal Rat.add Rat.mul Rat.sub Rat.inv in
/-- Claim C4 amended: for every cohort of active employees with
pairwise-distinct salaries joined to their departments, the row at
0-based ordinal position `i` of the salary-ascending order reports
percentile `ROUND(i / (n - 1) * 100, 2)`; when `n = 1` the percentile is
`0` (not 100); and for the three employees with salaries 40000, 60000,
80000 the reported percentiles are exactly 100, 50, 0 in the
salary-descending output — i.e. 0, 50, 100 along the ascending order. -/
theorem claim_C4_amended_percent_rank (employees : List Employee)
    (departments : List Department)
    (hnd : ((salaryStats employees departments).map (fun r => r.salary)).Nodup) :
    (∀ (i : ℕ) (hi : i < (salarySortedAsc employees departments).length),
      ((salarySortedAsc employees departments).get ⟨i, hi⟩).percentile_rank =
        if (salaryStats employees departments).length ≤ 1 then 0
        else round2 ((i : ℚ) /
          (((salaryStats employees departments).length : ℚ) - 1) * 100)) ∧
    (get_employee_salary_analysis threeEmployees [deptEng] 50).map
        (fun r => r.percentile_rank) = [100, 50, 0] := by
  constructor
  · intro i hi
    have hperm : (salarySortedAsc employees departments).Perm
        (salaryStats employees departments) := List.perm_insertionSort _ _
    have hsorted : List.Sorted (fun a b : SalaryRow => a.salary ≤ b.salary)
        (salarySortedAsc employees departments) :=
      @List.sorted_insertionSort _ _ _
        ⟨fun a b => le_total a.salary b.salary⟩
        ⟨fun a b c h1 h2 => le_trans h1 h2⟩
        (salaryStats employees departments)
    have hxmem : (salarySortedAsc employees departments).get ⟨i, hi⟩ ∈
        salaryStats employees departments :=
      hperm.mem_iff.1 (List.get_mem _ i hi)
    have hA := salaryStats_percentile employees departments _ hxmem
    have hssperm : ((salarySortedAsc employees departments).map (fun r => r.salary)).Perm
        ((salaryStats employees departments).map (fun r => r.salary)) :=
      hperm.map _
    have hssnd : ((salarySortedAsc employees departments).map (fun r => r.salary)).Nodup :=
      hssperm.nodup_iff.2 hnd
    have hsspw_le : List.Pairwise (fun a b : ℚ => a ≤ b)
        ((salarySortedAsc employees departments).map (fun r => r.salary)) :=
      List.pairwise_map.2 hsorted
    have hsspw : List.Pairwise (fun a b : ℚ => a < b)
        ((salarySortedAsc employees departments).map (fun r => r.salary)) :=
      (hsspw_le.and hssnd).imp (fun h => lt_of_le_of_ne h.1 h.2)
    have hilen : i < ((salarySortedAsc employees departments).map
        (fun r => r.salary)).length := by simpa using hi
    have hgetss : ((salarySortedAsc employees departments).map
        (fun r => r.salary)).get ⟨i, hilen⟩ =
        ((salarySortedAsc employees departments).get ⟨i, hi⟩).salary := by
      simp [List.get_eq_getElem, List.getElem_map]
    have hcount := countP_lt_of_strictSorted _ hsspw i hilen
    rw [hgetss] at hcount
    have hcount2 : ((salaryStats employees departments).map (fun r => r.salary)).countP
        (fun y => decide (y < ((salarySortedAsc employees departments).get
          ⟨i, hi⟩).salary)) = i := by
      rw [← hssperm.countP_eq]
      exact hcount
    have hlen : ((salaryStats employees departments).map (fun r => r.salary)).length =
        (salaryStats employees departments).length := List.length_map _ _
    rw [hA]
    unfold percentRankVal
    by_cases hn : ((salaryStats employees departments).map (fun r => r.salary)).length ≤ 1
    · rw [if_pos hn, if_pos (by omega)]
      decide
    · rw [if_neg hn, if_neg (by omega), hcount2, hlen]
  · decide

unseal Rat.add Rat.mul Rat.sub Rat.inv in
/-- Witness for the amended claim C4. -/
theorem claim_C4_amended_percent_rank_witness :
    ((salaryStats threeEmployees [deptEng]).map (fun r => r.salary)).Nodup ∧
    ((∀ (i : ℕ) (hi : i < (salarySortedAsc threeEmployees [deptEng]).length),
      ((salarySortedAsc threeEmployees [deptEng]).get ⟨i, hi⟩).percentile_rank =
        if (salaryStats threeEmployees [deptEng]).length ≤ 1 then 0
        else round2 ((i : ℚ) /
          (((salaryStats threeEmployees [deptEng]).length : ℚ) - 1) * 100)) ∧
    (get_employee_salary_analysis threeEmployees [deptEng] 50).map
        (fun r => r.percentile_rank) = [100, 50, 0]) :=
  ⟨by decide, claim_C4_amended_percent_rank threeEmployees [deptEng] (by decide)⟩
